import Mathlib

/-!
Verification of the video-generation core of the ENI repository.

The development shallowly embeds the core of `src/server/services/videoService.ts`
and the progress broadcaster of `src/server/index.ts`:

* the timing-allocation algorithm `calculateOptimalTimings` (JS numbers are
  modelled as exact rationals, `Math.round(x*10)/10` as `round1`);
* the duration-reconciliation and crossfade computations of
  `createVideoWithFFmpeg`;
* the session registry of the WebSocket progress broadcaster
  (`videoSessions` / `broadcastProgress`);
* the effectful skeleton of one pipeline run (`generateVideo` plus the
  `/api/generate-video` route wrapper): the sequence of progress events it
  publishes and the temporary files it creates and removes, parameterised by
  the outcomes of the external calls (TTS, image synthesis, ffprobe, ffmpeg).
-/

/- ===================== JS string primitives ===================== -/

/-- Character class of the JS regex `\s` (whitespace), as used by
`segment.split(/\s+/)` in `calculateOptimalTimings`. -/
def jsWhitespace (c : Char) : Bool :=
  c == ' ' || c == '\t' || c == '\n' || c == '\x0b' || c == '\x0c' || c == '\r' ||
  c == ' ' || c == ' ' || c == ' ' || c == ' ' || c == ' ' ||
  c == ' ' || c == ' ' || c == ' ' || c == ' ' || c == ' ' ||
  c == ' ' || c == ' ' || c == ' ' || c == ' ' || c == ' ' ||
  c == ' ' || c == ' ' || c == '　' || c == '﻿'

/-- Number of maximal whitespace runs in the remainder of the string; `prev`
records whether the previous character was whitespace. -/
def wsRunsAux : Bool → List Char → Nat
  | _, [] => 0
  | prev, c :: rest =>
    if jsWhitespace c then (if prev then 0 else 1) + wsRunsAux true rest
    else wsRunsAux false rest

/-- Length of `s.split(/\s+/)` in JS: one more than the number of maximal
whitespace runs (JS regex split produces a part before, between and after
each maximal run, including empty parts, and `"".split` gives `[""]`). -/
def wordCountJS (s : List Char) : Nat := wsRunsAux false s + 1

/-- Number of matches of the regex `[.,!?;:]`, as in
`(segment.match(/[.,!?;:]/g) || []).length`. -/
def punctCount (s : List Char) : Nat :=
  s.countP (fun c => c == '.' || c == ',' || c == '!' || c == '?' || c == ';' || c == ':')

/-- JS `toLowerCase` (the texts involved are ASCII, where it lowercases
character-wise). -/
def toLowerJS (s : List Char) : List Char := s.map Char.toLower

/-- Whether `pat` occurs at the start of the second list. -/
def leadMatch : List Char → List Char → Bool
  | [], _ => true
  | _ :: _, [] => false
  | p :: ps, c :: cs => p == c && leadMatch ps cs

/-- JS `String.prototype.includes`: whether `pat` occurs contiguously in `s`. -/
def containsSeq (pat : List Char) : List Char → Bool
  | [] => leadMatch pat []
  | c :: cs => leadMatch pat (c :: cs) || containsSeq pat cs

/- ===================== Timing allocator ===================== -/

/-- JS `Math.round(x * 10) / 10` (round to one decimal place; `Math.round`
rounds half toward positive infinity, i.e. `Math.round(y) = ⌊y + 0.5⌋`). -/
def round1 (x : ℚ) : ℚ := ((⌊x * 10 + 1/2⌋ : ℤ) : ℚ) / 10

/-- Emphasis test of `calculateOptimalTimings` (videoService.ts lines 53-54):
`segment.includes('!') || segment.toLowerCase().includes('important') || ...`. -/
def hasEmphasis (s : List Char) : Bool :=
  s.contains '!' || containsSeq "important".toList (toLowerJS s) ||
    containsSeq "critical".toList (toLowerJS s) || containsSeq "key".toList (toLowerJS s)

/-- Call-to-action test of `calculateOptimalTimings` (lines 58-59). -/
def hasCTA (s : List Char) : Bool :=
  containsSeq "call to action".toList (toLowerJS s) ||
    containsSeq "contact".toList (toLowerJS s) ||
    containsSeq "today".toList (toLowerJS s) ||
    containsSeq "now".toList (toLowerJS s)

/-- Weight of one segment, translated from the loop body of
`calculateOptimalTimings` (videoService.ts lines 44-67): base weight from
word/char/punctuation counts, a ×1.2 emphasis boost, a ×1.1 call-to-action
boost, and finally `weight = Math.max(weight, 2)`. -/
def segmentWeight (s : List Char) : ℚ :=
  let wordCount := wordCountJS s
  let charCount := s.length
  let punctuationCount := punctCount s
  let w1 : ℚ := (wordCount : ℚ) * (7/10) + (charCount : ℚ) * (1/50) +
    (punctuationCount : ℚ) * (1/2)
  let w2 := if hasEmphasis s then w1 * (6/5) else w1
  let w3 := if hasCTA s then w2 * (11/10) else w2
  max w3 2

/-- Target total duration (videoService.ts lines 71-76):
`25 + 15 * min(avgWordsPerSegment / 15, 1)`. -/
def targetDurationOf (ss : List (List Char)) : ℚ :=
  25 + (40 - 25) * min ((ss.map (fun s => (wordCountJS s : ℚ))).sum / (ss.length : ℚ) / 15) 1

/-- The per-segment timings before the final range adjustment
(videoService.ts lines 79-86): proportional share of the target duration,
clamped to `[2.5, 12]` and rounded to one decimal place. -/
def baseTimings (ss : List (List Char)) : List ℚ :=
  let segmentWeights := ss.map segmentWeight
  let totalWeight := segmentWeights.sum
  segmentWeights.map (fun w =>
    round1 (max (5/2) (min 12 (w / totalWeight * targetDurationOf ss))))

/-- Translation of `calculateOptimalTimings` (videoService.ts lines 35-100).
`MIN_TARGET_DURATION = 25`, `MAX_TARGET_DURATION = 40`. -/
def calculateOptimalTimings (ss : List (List Char)) : List ℚ :=
  let segmentWeights := ss.map segmentWeight
  let totalWeight := segmentWeights.sum
  let avgWordsPerSegment : ℚ := (ss.map (fun s => (wordCountJS s : ℚ))).sum / (ss.length : ℚ)
  let complexity := min (avgWordsPerSegment / 15) 1
  let targetDuration := 25 + (40 - 25) * complexity
  let timings := segmentWeights.map (fun w =>
    round1 (max (5/2) (min 12 (w / totalWeight * targetDuration))))
  let actualTotal := timings.sum
  if actualTotal < 25 ∨ actualTotal > 40 then
    timings.map (fun t => round1 (t * (targetDuration / actualTotal)))
  else timings

/- ===================== Compositor: duration reconciliation ===================== -/

/-- Total crossfade overlap of `createVideoWithFFmpeg` (videoService.ts lines
257-259): `numCrossfades * fadeDuration` with `fadeDuration = 1` for more than
one segment and `numCrossfades = max(0, n-1)`. -/
def totalCrossfadeOf (timings : List ℚ) : ℚ :=
  ((timings.length - 1 : ℕ) : ℚ) * (if 1 < timings.length then (1:ℚ) else 0)

/-- Timing adjustment of `createVideoWithFFmpeg` (videoService.ts lines
273-282): rescale all timings by `targetRawDuration / rawVideoDuration` when
the crossfade-adjusted video duration differs from the measured audio duration
by more than 0.5 seconds, where the target is `min(40, max(25, audioDuration))`. -/
def adjustTimingsFF (timings : List ℚ) (audioDuration : ℚ) : List ℚ :=
  let fadeDuration : ℚ := if 1 < timings.length then 1 else 0
  let numCrossfades : ℕ := timings.length - 1
  let totalCrossfadeDuration : ℚ := (numCrossfades : ℚ) * fadeDuration
  let rawVideoDuration := timings.sum
  let calculatedVideoDuration := rawVideoDuration - totalCrossfadeDuration
  let targetDuration := min 40 (max 25 audioDuration)
  let targetRawDuration := targetDuration + totalCrossfadeDuration
  if 1/2 < |audioDuration - calculatedVideoDuration| then
    timings.map (fun t => t * (targetRawDuration / rawVideoDuration))
  else timings

/- ===================== Compositor: crossfade transition chain ===================== -/

/-- The xfade clauses emitted by the transition loop (videoService.ts lines
320-337), as (duration, offset) descriptors: per clause the running
`cumulativeOffset` grows by `adjustedTimings[i-1] - fadeDuration` (unclamped)
and the emitted offset is `max(0, cumulativeOffset)`.  The argument list holds
the timings of all segments except the last. -/
def transAux (fade : ℚ) : ℚ → List ℚ → List (ℚ × ℚ)
  | _, [] => []
  | cum, t :: rest => (fade, max 0 (cum + t - fade)) :: transAux fade (cum + t - fade) rest

/-- The full list of crossfade transitions of the filter graph (videoService.ts
lines 317-343): none for a single segment, otherwise one 1.0-second xfade per
consecutive pair. -/
def buildTransitions (adj : List ℚ) : List (ℚ × ℚ) :=
  if 1 < adj.length then transAux 1 0 adj.dropLast else []

/-- Duration of the output of a left-to-right xfade chain: each xfade of the
current stream (playing its first `offset` seconds, then blending) with a next
clip of length `len` produces a stream of length `offset + len`. -/
def chainLen : ℚ → List ((ℚ × ℚ) × ℚ) → ℚ
  | len, [] => len
  | _, ((_, o), len2) :: rest => chainLen (o + len2) rest

/-- Displayed duration of the composed video: the xfade chain applied to the
first segment and the transition/clip pairs. -/
def displayedDuration (adj : List ℚ) : ℚ :=
  match adj with
  | [] => 0
  | a :: rest => chainLen a ((buildTransitions adj).zip rest)

/- ===================== Progress broadcaster (src/server/index.ts) ===================== -/

/-- Pipeline step names of the progress events. -/
inductive Step where
  | initializing
  | calculatingTimings
  | generatingAudio
  | generatingImages
  | creatingVideo
  | finalizing
  | completed
  | error
  deriving DecidableEq, Repr

/-- A published progress event: its step, and for the route-level error event
the categorized error code carried in its payload. -/
structure PubEvent where
  step : Step
  code : Option String
  deriving DecidableEq, Repr

/-- Terminal test of `broadcastProgress` (index.ts lines 110 and 126):
`step === 'completed' || step === 'error'`. -/
def isTerminal (s : Step) : Bool := s == Step.completed || s == Step.error

/-- The broadcaster's session registry `videoSessions`: a map from session id
to the set of subscribed handles, modelled as an association list. -/
abbrev Reg := List (Nat × List Nat)

/-- Lookup in the session registry (JS `Map.get`). -/
def lookupS : Reg → Nat → Option (List Nat)
  | [], _ => none
  | (k, hs) :: rest, sid => if k = sid then some hs else lookupS rest sid

/-- JS `Map.set`: replace the entry if the key exists, else append it. -/
def setS : Reg → Nat → List Nat → Reg
  | [], sid, hs => [(sid, hs)]
  | (k, v) :: rest, sid, hs =>
    if k = sid then (sid, hs) :: rest else (k, v) :: setS rest sid hs

/-- JS `Set.add`: add the handle if not already present. -/
def addHandle (hs : List Nat) (w : Nat) : List Nat := if w ∈ hs then hs else hs ++ [w]

/-- The subscribe handler (index.ts lines 72-79): create the session entry
lazily on first subscription, then add the handle to its set. -/
def subscribeS (reg : Reg) (sid w : Nat) : Reg :=
  match lookupS reg sid with
  | none => setS reg sid [w]
  | some hs => setS reg sid (addHandle hs w)

/-- JS `Map.delete`. -/
def eraseS : Reg → Nat → Reg
  | [], _ => []
  | (k, v) :: rest, sid => if k = sid then eraseS rest sid else (k, v) :: eraseS rest sid

/-- Remove one handle from a set of handles. -/
def dropHandle : List Nat → Nat → List Nat
  | [], _ => []
  | x :: xs, w => if x = w then dropHandle xs w else x :: dropHandle xs w

/-- The close handler (index.ts lines 85-98): remove the handle from every
session and delete sessions whose handle set became empty. -/
def disconnectS : Reg → Nat → Reg
  | [], _ => []
  | (k, v) :: rest, w =>
    if dropHandle v w = [] then disconnectS rest w
    else (k, dropHandle v w) :: disconnectS rest w

/-- `broadcastProgress` (index.ts lines 106-130): if the session has a
registered client set, the event is sent to the session's clients and, when
the step is terminal, the session record is deleted; otherwise nothing happens.
The second component records the event as delivered to the session's
subscribers. -/
def broadcastStep (reg : Reg) (sid : Nat) (e : PubEvent) : Reg × List PubEvent :=
  match lookupS reg sid with
  | none => (reg, [])
  | some _ => ((if isTerminal e.step then eraseS reg sid else reg), [e])

/-- Whether handle `w` is currently registered under session `sid`. -/
def registeredS (reg : Reg) (sid w : Nat) : Bool :=
  match lookupS reg sid with
  | some hs => hs.contains w
  | none => false

/-- Publish a list of events for one session through the broadcaster, in
order, collecting the delivered events. -/
def processPublishes (reg : Reg) (sid : Nat) : List PubEvent → Reg × List PubEvent
  | [] => (reg, [])
  | e :: rest =>
    let p := broadcastStep reg sid e
    let q := processPublishes p.1 sid rest
    (q.1, p.2 ++ q.2)

/-- The prefix of an event list up to and including its first terminal event. -/
def takeThroughTerminal : List PubEvent → List PubEvent
  | [] => []
  | e :: rest => e :: (if isTerminal e.step then [] else takeThroughTerminal rest)

/-- The steps occurring strictly after the first terminal step of a list. -/
def afterFirstTerminal : List Step → List Step
  | [] => []
  | s :: rest => if isTerminal s then rest else afterFirstTerminal rest

/- ===================== Pipeline run model ===================== -/

/-- Error messages thrown by the pipeline, as JS strings. -/
abbrev Msg := List Char

/-- Outcome of the audio phase's external calls (`generateAudioFile`,
videoService.ts lines 121-162): the TTS request can fail with a status text,
the response can lack an audio URL, or the audio download can fail. -/
inductive AudioOutcome where
  | ok
  | httpFail (st : Msg)
  | noUrl
  | downloadFail (st : Msg)

/-- Outcome of one image's external calls (`generateAllImages` and
`downloadImage`, videoService.ts lines 105-204). -/
inductive ImgOutcome where
  | ok
  | httpFail (st : Msg)
  | noUrl
  | downloadFail (st : Msg)

/-- Outcome of the supervised ffmpeg process (videoService.ts lines 361-453):
clean exit, nonzero exit code, spawn error, or the 120-second timeout. -/
inductive EncodeOutcome where
  | success
  | exitFail (c : Nat) (stderr : Msg)
  | spawnErr (emsg : Msg)
  | timeout (stderr : Msg)

/-- The environment of one pipeline run: the number of segments and the
outcomes of every external interaction, by which the run's control flow is
fully determined. -/
structure Env where
  n : Nat
  audio : AudioOutcome
  imgs : Nat → ImgOutcome
  audioProbe : Option ℚ
  encodeProgress : List ℚ
  encode : EncodeOutcome
  outProbe : Option ℚ

/-- Temporary audio artifact path (`/tmp/voiceover_...wav`; the timestamp
suffix is abstracted away). -/
def audioPathF : String := "tmp/voiceover.wav"

/-- Temporary per-segment image artifact path (`/tmp/image_..._....png`). -/
def imgPathF (i : Nat) : String := "tmp/image_" ++ toString (i + 1) ++ ".png"

/-- Temporary encoder output path (`/tmp/video_....mp4`). -/
def outPathF : String := "tmp/video.mp4"

/-- Durable artifact path (`public/videos/<uuid>.mp4`). -/
def durablePathF : String := "public/videos/video.mp4"

/-- Remove a path from the filesystem model (`fs.unlinkSync` guarded by
`fs.existsSync`). -/
def removeF : List String → String → List String
  | [], _ => []
  | q :: rest, p => if q = p then removeF rest p else q :: removeF rest p

/-- Audio phase (`generateAudioFile`): progress events published, files
created, and the outcome, per videoService.ts lines 121-162. -/
def runAudio : AudioOutcome → List Step × List String × Except Msg Unit
  | .ok =>
    ([Step.generatingAudio, Step.generatingAudio, Step.generatingAudio, Step.generatingAudio],
      [audioPathF], .ok ())
  | .httpFail st => ([Step.generatingAudio], [], .error ("TTS generation failed: ".toList ++ st))
  | .noUrl =>
    ([Step.generatingAudio, Step.generatingAudio], [],
      .error "No audio URL returned from TTS service".toList)
  | .downloadFail st =>
    ([Step.generatingAudio, Step.generatingAudio, Step.generatingAudio], [],
      .error ("Failed to download audio: ".toList ++ st))

/-- Image loop (`generateAllImages`, videoService.ts lines 167-204) over the
listed indices: two progress events and one downloaded file per successful
image, a trailing 100% event after the loop, stopping at the first failure. -/
def runImagesList (imgs : Nat → ImgOutcome) : List Nat → List Step × List String × Except Msg Unit
  | [] => ([Step.generatingImages], [], .ok ())
  | i :: rest =>
    match imgs i with
    | .ok =>
      let r := runImagesList imgs rest
      (Step.generatingImages :: Step.generatingImages :: r.1, imgPathF i :: r.2.1, r.2.2)
    | .httpFail st =>
      ([Step.generatingImages], [],
        .error (("Image generation failed for prompt " ++ toString (i + 1) ++ ": ").toList ++ st))
    | .noUrl =>
      ([Step.generatingImages], [],
        .error ("No image URL returned for prompt " ++ toString (i + 1)).toList)
    | .downloadFail st =>
      ([Step.generatingImages, Step.generatingImages], [],
        .error ("Failed to download image: ".toList ++ st))

/-- Video phase (`createVideoWithFFmpeg`, videoService.ts lines 241-453):
progress events, the resulting filesystem (threaded through, since the phase
creates and sometimes deletes the encoder output), the outcome carrying the
output path and probed duration, and whether the encoder process was killed.
The timeout and nonzero-exit branches delete the partial output; the
post-encode probe failure branch does not touch it. -/
def runEncode (env : Env) (fs : List String) :
    List Step × List String × Except Msg (String × ℚ) × Bool :=
  let pre := [Step.creatingVideo, Step.creatingVideo]
  match env.audioProbe with
  | none => (pre, fs, .error "FFprobe failed with code 1".toList, false)
  | some _ =>
    let pre := pre ++ [Step.creatingVideo, Step.creatingVideo] ++
      env.encodeProgress.map (fun _ => Step.creatingVideo)
    match env.encode with
    | .timeout stderr =>
      (pre, removeF (outPathF :: fs) outPathF,
        .error ("FFmpeg timeout after 120 seconds. Stderr: ".toList ++ stderr), true)
    | .exitFail c stderr =>
      (pre, removeF (outPathF :: fs) outPathF,
        .error (("FFmpeg failed with code " ++ toString c ++ ": ").toList ++ stderr), false)
    | .spawnErr emsg =>
      (pre, removeF fs outPathF, .error ("FFmpeg spawn error: ".toList ++ emsg), false)
    | .success =>
      let pre := pre ++ [Step.creatingVideo]
      match env.outProbe with
      | none =>
        (pre, outPathF :: fs,
          .error "Failed to get video duration: FFprobe failed with code 1".toList, false)
      | some d => (pre ++ [Step.creatingVideo], outPathF :: fs, .ok (outPathF, d), false)

/-- The `finally` block of `generateVideo` (videoService.ts lines 509-534):
publish a finalizing event and remove every created image file and the audio
file, in that order. -/
def cleanupF (fs : List String) (audioFiles imgFiles : List String) : List String :=
  audioFiles.foldl removeF (imgFiles.foldl removeF fs)

/-- One run of `generateVideo` (videoService.ts lines 459-535): the published
progress events (including the `completed`/`error` event published inside the
function and the `finalizing` event of its `finally` block), the files left on
disk, the outcome, and the killed flag of the encoder. -/
def runGen (env : Env) : List Step × List String × Except Msg (String × ℚ) × Bool :=
  let steps0 := [Step.initializing, Step.calculatingTimings]
  let a := runAudio env.audio
  match a.2.2 with
  | .error m =>
    (steps0 ++ a.1 ++ [Step.error, Step.finalizing],
      cleanupF a.2.1 a.2.1 [], .error m, false)
  | .ok _ =>
    let im := runImagesList env.imgs (List.range env.n)
    match im.2.2 with
    | .error m =>
      (steps0 ++ a.1 ++ im.1 ++ [Step.error, Step.finalizing],
        cleanupF (a.2.1 ++ im.2.1) a.2.1 im.2.1, .error m, false)
    | .ok _ =>
      let e := runEncode env (a.2.1 ++ im.2.1)
      match e.2.2.1 with
      | .error m =>
        (steps0 ++ a.1 ++ im.1 ++ e.1 ++ [Step.error, Step.finalizing],
          cleanupF e.2.1 a.2.1 im.2.1, .error m, e.2.2.2)
      | .ok r =>
        (steps0 ++ a.1 ++ im.1 ++ e.1 ++ [Step.completed, Step.finalizing],
          cleanupF e.2.1 a.2.1 im.2.1, .ok r, e.2.2.2)

/-- Error categorization of the route's catch block (routes, lines 1286-1304):
substring tests on the thrown error's message. -/
def categorizeError (m : Msg) : String :=
  if containsSeq "TTS generation failed".toList m then "TTS_SERVICE_ERROR"
  else if containsSeq "Image generation failed".toList m then "IMAGE_SERVICE_ERROR"
  else if containsSeq "FFmpeg failed".toList m then "VIDEO_PROCESSING_ERROR"
  else "INTERNAL_ERROR"

/-- Result of one full run as observed at the route level. -/
structure RunOut where
  events : List PubEvent
  fs : List String
  killed : Bool
  deriving Repr

/-- The `/api/generate-video` async continuation (routes, lines 1236-1317): it
runs `generateVideo`, on success moves the video to the durable location and
broadcasts a final `completed` event with the result payload, and on failure
broadcasts a final `error` event carrying the categorized error code. -/
def runRoute (env : Env) : RunOut :=
  let g := runGen env
  let pubs := g.1.map (fun s => PubEvent.mk s none)
  match g.2.2.1 with
  | .ok r =>
    { events := pubs ++ [PubEvent.mk Step.completed none],
      fs := durablePathF :: removeF g.2.1 r.1,
      killed := g.2.2.2 }
  | .error m =>
    { events := pubs ++ [PubEvent.mk Step.error (some (categorizeError m))],
      fs := g.2.1,
      killed := g.2.2.2 }

/- ===================== Spec-side variants used by refinement claims ===================== -/

/-- Modelled from claim C6's words: the base value floored at a minimum of 2
first, and the multiplicative boosts applied afterwards. -/
def claimOrderWeight (s : List Char) : ℚ :=
  let base : ℚ := (wordCountJS s : ℚ) * (7/10) + (s.length : ℚ) * (1/50) +
    (punctCount s : ℚ) * (1/2)
  let floored := max base 2
  let w1 := if hasEmphasis s then floored * (6/5) else floored
  if hasCTA s then w1 * (11/10) else w1

/-- Modelled from claim C5's words: rescale (and round) all timings whenever
the clamped sum deviates from the target duration. -/
def rescaleOnAnyDeviation (ss : List (List Char)) : List ℚ :=
  let b := baseTimings ss
  if b.sum ≠ targetDurationOf ss then
    b.map (fun t => round1 (t * (targetDurationOf ss / b.sum)))
  else b

/- ===================== Concrete inputs ===================== -/

/-- A one-word segment text. -/
def exHi : List Char := "hi".toList

/-- A fifteen-word segment text containing no emphasis or call-to-action
markers and no punctuation. -/
def w15 : List Char :=
  "one two three four five six seven eight nine ten eleven twelve thirteen fourteen fifteen".toList

/-- Three identical fifteen-word segments. -/
def exC5 : List (List Char) := [w15, w15, w15]

/-- A fully successful run environment with one segment. -/
def envOk : Env :=
  { n := 1, audio := .ok, imgs := fun _ => .ok, audioProbe := some 30,
    encodeProgress := [], encode := .success, outProbe := some 27 }

/-- A run environment in which the encoder succeeds but the post-encode
ffprobe of the output fails. -/
def envProbeFail : Env :=
  { n := 1, audio := .ok, imgs := fun _ => .ok, audioProbe := some 30,
    encodeProgress := [], encode := .success, outProbe := none }

/-- A run environment in which the encoder hits the 120-second timeout
(with empty stderr). -/
def envTimeout : Env :=
  { n := 1, audio := .ok, imgs := fun _ => .ok, audioProbe := some 30,
    encodeProgress := [], encode := .timeout [], outProbe := none }

/- ===================== Rounding lemmas ===================== -/

lemma round1_le (x : ℚ) : round1 x ≤ x + 1/20 := by
  unfold round1
  have h := Int.floor_le (x * 10 + 1/2)
  have h10 : (0:ℚ) < 10 := by norm_num
  rw [div_le_iff₀ h10]
  linarith

lemma lt_round1 (x : ℚ) : x - 1/20 < round1 x := by
  unfold round1
  have h := Int.sub_one_lt_floor (x * 10 + 1/2)
  have h10 : (0:ℚ) < 10 := by norm_num
  rw [lt_div_iff₀ h10]
  linarith

lemma round1_mono {x y : ℚ} (h : x ≤ y) : round1 x ≤ round1 y := by
  unfold round1
  have hf : ⌊x * 10 + 1/2⌋ ≤ ⌊y * 10 + 1/2⌋ := Int.floor_le_floor (by linarith)
  have hc : ((⌊x * 10 + 1/2⌋ : ℤ) : ℚ) ≤ ((⌊y * 10 + 1/2⌋ : ℤ) : ℚ) := by exact_mod_cast hf
  linarith

lemma round1_at_5half : round1 (5/2) = 5/2 := by norm_num [round1]

lemma round1_at_12 : round1 12 = 12 := by norm_num [round1]

lemma sum_map_mulRight (l : List ℚ) (k : ℚ) : (l.map (fun t => t * k)).sum = l.sum * k := by
  induction l with
  | nil => simp
  | cons a as ih => simp only [List.map, List.sum_cons, ih]; ring

lemma sum_map_round1_le (l : List ℚ) : (l.map round1).sum ≤ l.sum + l.length * (1/20) := by
  induction l with
  | nil => simp
  | cons a as ih =>
    simp only [List.map, List.sum_cons, List.length_cons]
    have h := round1_le a
    push_cast
    linarith

lemma le_sum_map_round1 (l : List ℚ) : l.sum - l.length * (1/20) ≤ (l.map round1).sum := by
  induction l with
  | nil => simp
  | cons a as ih =>
    simp only [List.map, List.sum_cons, List.length_cons]
    have h := lt_round1 a
    push_cast
    linarith

/- ===================== Allocator structure lemmas ===================== -/

lemma calcOptimal_eq (ss : List (List Char)) :
    calculateOptimalTimings ss =
      if (baseTimings ss).sum < 25 ∨ 40 < (baseTimings ss).sum then
        (baseTimings ss).map (fun t => round1 (t * (targetDurationOf ss / (baseTimings ss).sum)))
      else baseTimings ss := rfl

lemma segmentWeight_ge_two (s : List Char) : 2 ≤ segmentWeight s := by
  simp only [segmentWeight]
  exact le_max_right _ _

lemma baseTimings_length (ss : List (List Char)) : (baseTimings ss).length = ss.length := by
  simp [baseTimings]

lemma baseTimings_mem_bounds (ss : List (List Char)) :
    ∀ t ∈ baseTimings ss, 5/2 ≤ t ∧ t ≤ 12 := by
  intro t ht
  simp only [baseTimings, List.mem_map] at ht
  obtain ⟨w, hw, rfl⟩ := ht
  constructor
  · calc (5/2 : ℚ) = round1 (5/2) := round1_at_5half.symm
      _ ≤ _ := round1_mono (le_max_left _ _)
  · calc round1 _ ≤ round1 12 := round1_mono (max_le (by norm_num) (min_le_left _ _))
      _ = 12 := round1_at_12

lemma sum_ge_head_bound {l : List ℚ} (hne : l ≠ []) (h : ∀ t ∈ l, 5/2 ≤ t) : 5/2 ≤ l.sum := by
  obtain ⟨a, as, rfl⟩ := List.exists_cons_of_ne_nil hne
  have ha := h a (List.mem_cons_self a as)
  have h0 : 0 ≤ as.sum :=
    List.sum_nonneg (fun x hx => le_trans (by norm_num) (h x (List.mem_cons_of_mem a hx)))
  rw [List.sum_cons]
  linarith

lemma wordCountJS_ge_one (s : List Char) : 1 ≤ wordCountJS s := Nat.le_add_left 1 _

lemma wcSum_ge_len (ss : List (List Char)) :
    (ss.length : ℚ) ≤ (ss.map (fun s => (wordCountJS s : ℚ))).sum := by
  induction ss with
  | nil => simp
  | cons a as ih =>
    have h1 : (1:ℚ) ≤ (wordCountJS a : ℚ) := by exact_mod_cast wordCountJS_ge_one a
    simp only [List.map, List.sum_cons, List.length_cons]
    push_cast
    linarith

lemma target_bounds (ss : List (List Char)) (h : ss ≠ []) :
    26 ≤ targetDurationOf ss ∧ targetDurationOf ss ≤ 40 := by
  unfold targetDurationOf
  have hlen : (0:ℚ) < (ss.length : ℚ) := by
    have hp : 0 < ss.length := List.length_pos.mpr h
    exact_mod_cast hp
  have hS : (ss.length : ℚ) ≤ (ss.map (fun s => (wordCountJS s : ℚ))).sum := wcSum_ge_len ss
  have havg : (1:ℚ) ≤ (ss.map (fun s => (wordCountJS s : ℚ))).sum / (ss.length : ℚ) :=
    (one_le_div hlen).mpr hS
  have hmin_lb : (1/15 : ℚ) ≤
      min ((ss.map (fun s => (wordCountJS s : ℚ))).sum / (ss.length : ℚ) / 15) 1 := by
    refine le_min ?_ (by norm_num)
    calc (1/15 : ℚ) = 1 / 15 := rfl
      _ ≤ (ss.map (fun s => (wordCountJS s : ℚ))).sum / (ss.length : ℚ) / 15 := by
          gcongr
  have hmin_ub : min ((ss.map (fun s => (wordCountJS s : ℚ))).sum / (ss.length : ℚ) / 15) 1 ≤ 1 :=
    min_le_right _ _
  constructor <;> linarith

/- ===================== Concrete evaluation lemmas ===================== -/

lemma exHi_wc : wordCountJS exHi = 1 := by decide

lemma exHi_len : exHi.length = 2 := by decide

lemma exHi_punct : punctCount exHi = 0 := by decide

lemma exHi_emph : hasEmphasis exHi = false := by decide

lemma exHi_cta : hasCTA exHi = false := by decide

lemma exHi_weight : segmentWeight exHi = 2 := by
  simp only [segmentWeight, exHi_wc, exHi_len, exHi_punct, exHi_emph, exHi_cta]
  norm_num

lemma exHi_target : targetDurationOf [exHi] = 26 := by
  simp only [targetDurationOf, List.map, exHi_wc, List.sum_cons, List.sum_nil,
    List.length_singleton]
  norm_num [min_def]

lemma exHi_base : baseTimings [exHi] = [12] := by
  simp only [baseTimings, List.map, exHi_weight, List.sum_cons, List.sum_nil, exHi_target]
  norm_num [round1, min_def, max_def]

lemma w15_wc : wordCountJS w15 = 15 := by decide

lemma w15_len : w15.length = 88 := by decide

lemma w15_punct : punctCount w15 = 0 := by decide

lemma w15_emph : hasEmphasis w15 = false := by decide

lemma w15_cta : hasCTA w15 = false := by decide

lemma w15_weight : segmentWeight w15 = 613/50 := by
  simp only [segmentWeight, w15_wc, w15_len, w15_punct, w15_emph, w15_cta]
  norm_num

lemma exC5_target : targetDurationOf exC5 = 40 := by
  simp only [exC5, targetDurationOf, List.map, w15_wc, List.sum_cons, List.sum_nil,
    List.length_cons, List.length_nil]
  norm_num [min_def]

lemma exC5_base : baseTimings exC5 = [12, 12, 12] := by
  simp only [exC5, baseTimings, List.map, w15_weight, List.sum_cons, List.sum_nil]
  have ht : targetDurationOf [w15, w15, w15] = 40 := exC5_target
  rw [ht]
  norm_num [round1, min_def, max_def]

/- ===================== Claim C1 ===================== -/

/-- Claim C1 (amended): for 1 to 6 segments with non-empty texts,
`calculateOptimalTimings` returns exactly one timing per segment; every timing
lies within `[2.5, 12]` after the initial allocation (before the final range
adjustment); and the returned total lies within `[25, 40]` up to the
one-decimal rounding of the rescale (at most `+0.3`).  After the rescale an
individual timing may leave `[2.5, 12]`. -/
theorem timing_allocation_bounds (ss : List (List Char))
    (h1 : 1 ≤ ss.length) (h2 : ss.length ≤ 6) (h3 : ∀ s ∈ ss, s ≠ []) :
    (calculateOptimalTimings ss).length = ss.length ∧
    (∀ t ∈ baseTimings ss, 5/2 ≤ t ∧ t ≤ 12) ∧
    25 ≤ (calculateOptimalTimings ss).sum ∧ (calculateOptimalTimings ss).sum ≤ 403/10 := by
  have hne : ss ≠ [] := by
    intro hemp
    rw [hemp] at h1
    simp at h1
  have hb := baseTimings_mem_bounds ss
  have hblen : (baseTimings ss).length = ss.length := baseTimings_length ss
  have hbne : baseTimings ss ≠ [] := by
    intro hemp
    rw [hemp] at hblen
    simp at hblen
    omega
  have hS : 5/2 ≤ (baseTimings ss).sum := sum_ge_head_bound hbne (fun t ht => (hb t ht).1)
  have hS0 : (baseTimings ss).sum ≠ 0 := by linarith
  obtain ⟨hT1, hT2⟩ := target_bounds ss hne
  have hlen6 : ((baseTimings ss).length : ℚ) ≤ 6 := by
    rw [hblen]
    exact_mod_cast h2
  have hlen0 : (0:ℚ) ≤ ((baseTimings ss).length : ℚ) := by positivity
  rw [calcOptimal_eq]
  by_cases hc : (baseTimings ss).sum < 25 ∨ 40 < (baseTimings ss).sum
  · rw [if_pos hc]
    have hmm : (baseTimings ss).map
          (fun t => round1 (t * (targetDurationOf ss / (baseTimings ss).sum))) =
        ((baseTimings ss).map
          (fun t => t * (targetDurationOf ss / (baseTimings ss).sum))).map round1 := by
      rw [List.map_map]
      rfl
    have hsum' : ((baseTimings ss).map
        (fun t => t * (targetDurationOf ss / (baseTimings ss).sum))).sum =
        targetDurationOf ss := by
      rw [sum_map_mulRight]
      field_simp
    have hlen' : ((baseTimings ss).map
        (fun t => t * (targetDurationOf ss / (baseTimings ss).sum))).length =
        (baseTimings ss).length := List.length_map _ _
    have hup := sum_map_round1_le
      ((baseTimings ss).map (fun t => t * (targetDurationOf ss / (baseTimings ss).sum)))
    have hlo := le_sum_map_round1
      ((baseTimings ss).map (fun t => t * (targetDurationOf ss / (baseTimings ss).sum)))
    rw [hsum', hlen'] at hup hlo
    rw [hmm]
    refine ⟨by simp [hblen], hb, ?_, ?_⟩
    · nlinarith
    · nlinarith
  · rw [if_neg hc]
    push_neg at hc
    obtain ⟨hc1, hc2⟩ := hc
    exact ⟨hblen, hb, by linarith, by linarith⟩

/-- Witness for claim C1's theorem at the one-segment input `["hi"]`. -/
theorem timing_allocation_bounds_witness :
    (1 ≤ ([exHi] : List (List Char)).length ∧ ([exHi] : List (List Char)).length ≤ 6 ∧
      (∀ s ∈ ([exHi] : List (List Char)), s ≠ [])) ∧
    ((calculateOptimalTimings [exHi]).length = ([exHi] : List (List Char)).length ∧
      (∀ t ∈ baseTimings [exHi], 5/2 ≤ t ∧ t ≤ 12) ∧
      25 ≤ (calculateOptimalTimings [exHi]).sum ∧ (calculateOptimalTimings [exHi]).sum ≤ 403/10) :=
  ⟨⟨by decide, by decide, by decide⟩,
    timing_allocation_bounds [exHi] (by decide) (by decide) (by decide)⟩

/-- Counterexample to claim C1 as stated: for the single segment `"hi"` the
function returns `[26]`, and `26` does not lie within `[2.5, 12]` (the
post-rescale bound part of the claim fails; the pre-rescale sum `12` also lies
outside `[25, 40]`). -/
theorem timing_allocation_counterexample :
    calculateOptimalTimings [exHi] = [26] ∧ baseTimings [exHi] = [12] ∧
    ¬ (∀ t ∈ calculateOptimalTimings [exHi], 5/2 ≤ t ∧ t ≤ 12) := by
  have hmain : calculateOptimalTimings [exHi] = [26] := by
    rw [calcOptimal_eq, exHi_base, exHi_target]
    norm_num [round1]
  refine ⟨hmain, exHi_base, ?_⟩
  rw [hmain]
  intro hall
  have h26 := hall 26 (by simp)
  norm_num at h26

/- ===================== Claim C5 ===================== -/

/-- Claim C5 (amended): the allocator rescales the timings (by
`targetDuration / actualSum`, rounding to one decimal place) exactly when the
clamped sum lies outside `[25, 40]`; a deviation of the clamped sum from
`targetDuration` alone does not trigger the rescale. -/
theorem rescale_guard_range (ss : List (List Char)) :
    calculateOptimalTimings ss =
      if (baseTimings ss).sum < 25 ∨ 40 < (baseTimings ss).sum then
        (baseTimings ss).map (fun t => round1 (t * (targetDurationOf ss / (baseTimings ss).sum)))
      else baseTimings ss :=
  calcOptimal_eq ss

/-- Counterexample to claim C5 as stated: for three identical 15-word segments
the clamped timings are `[12, 12, 12]` with sum `36`, deviating from the
target duration `40`, yet the function returns them unrescaled; the rescale
the claim prescribes would return `[13.3, 13.3, 13.3]`. -/
theorem rescale_trigger_counterexample :
    calculateOptimalTimings exC5 = [12, 12, 12] ∧
    targetDurationOf exC5 = 40 ∧
    rescaleOnAnyDeviation exC5 = [133/10, 133/10, 133/10] ∧
    calculateOptimalTimings exC5 ≠ rescaleOnAnyDeviation exC5 := by
  have h1 : calculateOptimalTimings exC5 = [12, 12, 12] := by
    rw [calcOptimal_eq, exC5_base]
    norm_num
  have h2 : rescaleOnAnyDeviation exC5 = [133/10, 133/10, 133/10] := by
    simp only [rescaleOnAnyDeviation, exC5_base, exC5_target]
    norm_num [round1]
  refine ⟨h1, exC5_target, h2, ?_⟩
  rw [h1, h2]
  intro hcontra
  injection hcontra with hhead _
  norm_num at hhead

/- ===================== Claim C6 ===================== -/

/-- Claim C6 (amended): the weight equals the base value
`0.7·wordCount + 0.02·charCount + 0.5·punctuationCount`, multiplied by 1.2
when the text has emphasis markers and (independently stackable) by 1.1 when
it has call-to-action language, and floored at a minimum of 2 afterwards: the
floor is applied after the multiplicative boosts, not before. -/
theorem weight_floor_after_boosts (s : List Char) :
    segmentWeight s =
      max (((wordCountJS s : ℚ) * (7/10) + (s.length : ℚ) * (1/50) +
          (punctCount s : ℚ) * (1/2)) *
        (if hasEmphasis s then 6/5 else 1) * (if hasCTA s then 11/10 else 1)) 2 := by
  simp only [segmentWeight]
  cases he : hasEmphasis s <;> cases hc : hasCTA s <;> simp [he, hc]

/-- Counterexample to claim C6 as stated: for the text `"key"` (base weight
`0.76`, emphasis boost applicable) the code computes
`max(0.76 × 1.2, 2) = 2`, while flooring before the boosts as the claim states
would give `max(0.76, 2) × 1.2 = 2.4`. -/
theorem weight_order_counterexample :
    segmentWeight ("key".toList) = 2 ∧ claimOrderWeight ("key".toList) = 12/5 ∧
    segmentWeight ("key".toList) ≠ claimOrderWeight ("key".toList) := by
  have hwc : wordCountJS ("key".toList) = 1 := by decide
  have hlen : ("key".toList).length = 3 := by decide
  have hp : punctCount ("key".toList) = 0 := by decide
  have he : hasEmphasis ("key".toList) = true := by decide
  have hc : hasCTA ("key".toList) = false := by decide
  have h1 : segmentWeight ("key".toList) = 2 := by
    simp only [segmentWeight, hwc, hlen, hp, he, hc]
    norm_num [max_def]
  have h2 : claimOrderWeight ("key".toList) = 12/5 := by
    simp only [claimOrderWeight, hwc, hlen, hp, he, hc]
    norm_num [max_def]
  refine ⟨h1, h2, ?_⟩
  rw [h1, h2]
  norm_num

/- ===================== Claim C7 ===================== -/

/-- Claim C7: in the compositor the final target duration is
`clamp(measuredAudioDuration, 25, 40)`; when the crossfade-adjusted video
duration differs from the measured audio duration by more than 0.5 seconds,
every timing is uniformly rescaled by `(target + totalCrossfadeOverlap) /
rawSum` (no re-clamp to `[2.5, 12]` is applied), making the rescaled video
duration equal the target; otherwise the timings are returned unchanged. -/
theorem compose_duration_reconciliation (timings : List ℚ) (audio : ℚ)
    (hS : 0 < timings.sum) :
    (1/2 < |audio - (timings.sum - totalCrossfadeOf timings)| →
      adjustTimingsFF timings audio =
        timings.map (fun t =>
          t * ((min 40 (max 25 audio) + totalCrossfadeOf timings) / timings.sum)) ∧
      (adjustTimingsFF timings audio).sum - totalCrossfadeOf timings =
        min 40 (max 25 audio)) ∧
    (|audio - (timings.sum - totalCrossfadeOf timings)| ≤ 1/2 →
      adjustTimingsFF timings audio = timings) := by
  have hS0 : timings.sum ≠ 0 := ne_of_gt hS
  constructor
  · intro hgt
    have heq : adjustTimingsFF timings audio =
        timings.map (fun t =>
          t * ((min 40 (max 25 audio) + totalCrossfadeOf timings) / timings.sum)) := by
      simp only [adjustTimingsFF, totalCrossfadeOf] at *
      rw [if_pos hgt]
    refine ⟨heq, ?_⟩
    rw [heq, sum_map_mulRight]
    field_simp
  · intro hle
    simp only [adjustTimingsFF, totalCrossfadeOf] at *
    rw [if_neg (not_lt.mpr hle)]

/-- Witness for claim C7's theorem at `timings = [10, 10, 10]`,
`audio = 20`. -/
theorem compose_duration_reconciliation_witness :
    (0 : ℚ) < ([10, 10, 10] : List ℚ).sum ∧
    ((1/2 < |20 - (([10, 10, 10] : List ℚ).sum - totalCrossfadeOf [10, 10, 10])| →
      adjustTimingsFF [10, 10, 10] 20 =
        ([10, 10, 10] : List ℚ).map (fun t =>
          t * ((min 40 (max 25 20) + totalCrossfadeOf [10, 10, 10]) /
            ([10, 10, 10] : List ℚ).sum)) ∧
      (adjustTimingsFF [10, 10, 10] 20).sum - totalCrossfadeOf [10, 10, 10] =
        min 40 (max 25 20)) ∧
    (|20 - (([10, 10, 10] : List ℚ).sum - totalCrossfadeOf [10, 10, 10])| ≤ 1/2 →
      adjustTimingsFF [10, 10, 10] 20 = [10, 10, 10])) :=
  ⟨by norm_num, compose_duration_reconciliation [10, 10, 10] 20 (by norm_num)⟩


/- ===================== Claim C8 ===================== -/

lemma transAux_cons (fade cum t : ℚ) (rest : List ℚ) :
    transAux fade cum (t :: rest) =
      (fade, max 0 (cum + t - fade)) :: transAux fade (cum + t - fade) rest := rfl

lemma chainLen_cons (L d o len2 : ℚ) (rest : List ((ℚ × ℚ) × ℚ)) :
    chainLen L (((d, o), len2) :: rest) = chainLen (o + len2) rest := rfl

lemma transAux_length (fade : ℚ) : ∀ (cum : ℚ) (l : List ℚ),
    (transAux fade cum l).length = l.length := by
  intro cum l
  induction l generalizing cum with
  | nil => rfl
  | cons t rest ih => simp only [transAux_cons, List.length_cons, ih]

lemma transAux_fade (fade : ℚ) : ∀ (cum : ℚ) (l : List ℚ),
    ∀ p ∈ transAux fade cum l, p.1 = fade := by
  intro cum l
  induction l generalizing cum with
  | nil => intro p hp; cases hp
  | cons t rest ih =>
    intro p hp
    rw [transAux_cons] at hp
    rcases List.mem_cons.mp hp with hp1 | hp1
    · rw [hp1]
    · exact ih _ p hp1

lemma chain_eq (clips : List ℚ) : ∀ (cum prev L : ℚ), 0 ≤ cum → 1 ≤ prev →
    (∀ t ∈ clips, 1 ≤ t) → clips ≠ [] →
    chainLen L ((transAux 1 cum (prev :: clips.dropLast)).zip clips) =
      cum + prev + clips.sum - clips.length := by
  induction clips with
  | nil => intro cum prev L _ _ _ hne; exact absurd rfl hne
  | cons c cs ih =>
    intro cum prev L hcum hprev hmem _
    have hc : 1 ≤ c := hmem c (List.mem_cons_self c cs)
    have ho : max 0 (cum + prev - 1) = cum + prev - 1 := max_eq_right (by linarith)
    rcases eq_or_ne cs [] with hcs | hcs
    · subst hcs
      have hdl : ([c] : List ℚ).dropLast = [] := rfl
      rw [hdl, transAux_cons, List.zip_cons_cons, List.zip_nil_right, chainLen_cons, ho]
      simp only [chainLen, List.sum_cons, List.sum_nil, List.length_cons, List.length_nil]
      push_cast
      ring
    · obtain ⟨c2, cs2, rfl⟩ := List.exists_cons_of_ne_nil hcs
      have hdl : (c :: c2 :: cs2).dropLast = c :: (c2 :: cs2).dropLast := rfl
      rw [hdl, transAux_cons, List.zip_cons_cons, chainLen_cons, ho]
      have ihr := ih (cum + prev - 1) c (cum + prev - 1 + c)
        (by linarith) hc (fun t ht => hmem t (List.mem_cons_of_mem c ht)) (by simp)
      rw [ihr]
      simp only [List.sum_cons, List.length_cons]
      push_cast
      ring

/-- Claim C8: the filter graph holds exactly `n − 1` crossfade transitions for
`n` segments (zero for a single segment), each of the fixed duration 1.0
second, and the displayed duration of the xfade chain equals the sum of the
per-segment timings minus `(n − 1) × 1.0` (for timings of at least the fade
duration, so that no transition offset is clamped at zero). -/
theorem crossfade_transition_structure (adj : List ℚ) (hne : adj ≠ [])
    (h1 : ∀ t ∈ adj, 1 ≤ t) :
    (buildTransitions adj).length = adj.length - 1 ∧
    (∀ p ∈ buildTransitions adj, p.1 = 1) ∧
    displayedDuration adj = adj.sum - ((adj.length - 1 : ℕ) : ℚ) := by
  obtain ⟨a, rest, rfl⟩ := List.exists_cons_of_ne_nil hne
  rcases eq_or_ne rest [] with hr | hr
  · subst hr
    refine ⟨rfl, ?_, ?_⟩
    · intro p hp
      simp [buildTransitions] at hp
    · simp [displayedDuration, buildTransitions, chainLen]
  · obtain ⟨b, rest2, rfl⟩ := List.exists_cons_of_ne_nil hr
    have hlt : 1 < (a :: b :: rest2).length := by
      simp only [List.length_cons]
      omega
    have hbt : buildTransitions (a :: b :: rest2) =
        transAux 1 0 (a :: (b :: rest2).dropLast) := by
      simp only [buildTransitions, if_pos hlt]
      rfl
    refine ⟨?_, ?_, ?_⟩
    · rw [hbt, transAux_length]
      simp only [List.length_cons, List.length_dropLast]
      omega
    · intro p hp
      rw [hbt] at hp
      exact transAux_fade 1 0 _ p hp
    · have hch := chain_eq (b :: rest2) 0 a a (le_refl 0)
        (h1 a (List.mem_cons_self a (b :: rest2)))
        (fun t ht => h1 t (List.mem_cons_of_mem a ht)) hr
      simp only [displayedDuration, hbt]
      rw [hch]
      simp only [List.sum_cons, List.length_cons]
      push_cast
      ring

/-- Witness for claim C8's theorem at the two-segment plan `[3, 4]`. -/
theorem crossfade_transition_structure_witness :
    (([3, 4] : List ℚ) ≠ [] ∧ (∀ t ∈ ([3, 4] : List ℚ), 1 ≤ t)) ∧
    ((buildTransitions [3, 4]).length = ([3, 4] : List ℚ).length - 1 ∧
      (∀ p ∈ buildTransitions [3, 4], p.1 = 1) ∧
      displayedDuration [3, 4] =
        ([3, 4] : List ℚ).sum - ((([3, 4] : List ℚ).length - 1 : ℕ) : ℚ)) :=
  ⟨⟨by simp, by intro t ht; fin_cases ht <;> norm_num⟩,
    crossfade_transition_structure [3, 4] (by simp)
      (by intro t ht; fin_cases ht <;> norm_num)⟩

/- ===================== Broadcaster registry lemmas ===================== -/

lemma lookupS_erase (reg : Reg) (sid : Nat) : lookupS (eraseS reg sid) sid = none := by
  induction reg with
  | nil => rfl
  | cons p rest ih =>
    obtain ⟨k, v⟩ := p
    simp only [eraseS]
    by_cases hk : k = sid
    · rw [if_pos hk]
      exact ih
    · rw [if_neg hk]
      simp only [lookupS]
      rw [if_neg hk]
      exact ih

lemma lookupS_setS_self (reg : Reg) (sid : Nat) (hs : List Nat) :
    lookupS (setS reg sid hs) sid = some hs := by
  induction reg with
  | nil => simp [setS, lookupS]
  | cons p rest ih =>
    obtain ⟨k, v⟩ := p
    simp only [setS]
    by_cases hk : k = sid
    · rw [if_pos hk]
      simp [lookupS]
    · rw [if_neg hk]
      simp only [lookupS]
      rw [if_neg hk]
      exact ih

lemma lookupS_mem : ∀ {reg : Reg} {s : Nat} {hs : List Nat},
    lookupS reg s = some hs → (s, hs) ∈ reg := by
  intro reg
  induction reg with
  | nil => intro s hs h; cases h
  | cons p rest ih =>
    intro s hs h
    obtain ⟨k, v⟩ := p
    simp only [lookupS] at h
    by_cases hk : k = s
    · rw [if_pos hk] at h
      injection h with hv
      subst hk
      subst hv
      exact List.mem_cons_self _ _
    · rw [if_neg hk] at h
      exact List.mem_cons_of_mem _ (ih h)

lemma mem_eraseS : ∀ {reg : Reg} {sid : Nat} {p : Nat × List Nat},
    p ∈ eraseS reg sid → p ∈ reg := by
  intro reg
  induction reg with
  | nil => intro sid p hp; cases hp
  | cons q rest ih =>
    intro sid p hp
    obtain ⟨k, v⟩ := q
    simp only [eraseS] at hp
    by_cases hk : k = sid
    · rw [if_pos hk] at hp
      exact List.mem_cons_of_mem _ (ih hp)
    · rw [if_neg hk] at hp
      rcases List.mem_cons.mp hp with hp1 | hp1
      · rw [hp1]; exact List.mem_cons_self _ _
      · exact List.mem_cons_of_mem _ (ih hp1)

lemma mem_setS : ∀ {reg : Reg} {sid : Nat} {v : List Nat} {p : Nat × List Nat},
    p ∈ setS reg sid v → p ∈ reg ∨ p = (sid, v) := by
  intro reg
  induction reg with
  | nil =>
    intro sid v p hp
    rcases List.mem_cons.mp hp with hp1 | hp1
    · exact Or.inr hp1
    · cases hp1
  | cons q rest ih =>
    intro sid v p hp
    obtain ⟨k, w⟩ := q
    simp only [setS] at hp
    by_cases hk : k = sid
    · rw [if_pos hk] at hp
      rcases List.mem_cons.mp hp with hp1 | hp1
      · exact Or.inr hp1
      · exact Or.inl (List.mem_cons_of_mem _ hp1)
    · rw [if_neg hk] at hp
      rcases List.mem_cons.mp hp with hp1 | hp1
      · exact Or.inl (by rw [hp1]; exact List.mem_cons_self _ _)
      · rcases ih hp1 with hin | heq
        · exact Or.inl (List.mem_cons_of_mem _ hin)
        · exact Or.inr heq

lemma addHandle_ne_nil (hs : List Nat) (w : Nat) : addHandle hs w ≠ [] := by
  unfold addHandle
  by_cases h : w ∈ hs
  · rw [if_pos h]
    exact List.ne_nil_of_mem h
  · rw [if_neg h]
    simp

/-- The registry invariant: every session entry has a non-empty handle set.
It is preserved by subscription. -/
lemma subscribeS_nonempty {reg : Reg} (hinv : ∀ p ∈ reg, p.2 ≠ []) (sid w : Nat) :
    ∀ p ∈ subscribeS reg sid w, p.2 ≠ [] := by
  intro p hp
  unfold subscribeS at hp
  cases hml : lookupS reg sid with
  | none =>
    rw [hml] at hp
    rcases mem_setS hp with hin | heq
    · exact hinv p hin
    · rw [heq]; simp
  | some hs =>
    rw [hml] at hp
    rcases mem_setS hp with hin | heq
    · exact hinv p hin
    · rw [heq]; exact addHandle_ne_nil hs w

/-- The registry invariant is preserved by broadcasting. -/
lemma broadcastStep_nonempty {reg : Reg} (hinv : ∀ p ∈ reg, p.2 ≠ []) (sid : Nat)
    (e : PubEvent) : ∀ p ∈ (broadcastStep reg sid e).1, p.2 ≠ [] := by
  intro p hp
  unfold broadcastStep at hp
  cases hml : lookupS reg sid with
  | none => rw [hml] at hp; exact hinv p hp
  | some hs =>
    rw [hml] at hp
    by_cases ht : isTerminal e.step = true
    · rw [if_pos ht] at hp
      exact hinv p (mem_eraseS hp)
    · rw [if_neg ht] at hp
      exact hinv p hp

/-- The registry invariant is preserved by a client disconnect. -/
lemma disconnectS_nonempty (reg : Reg) (w : Nat) :
    ∀ p ∈ disconnectS reg w, p.2 ≠ [] := by
  induction reg with
  | nil => intro p hp; cases hp
  | cons q rest ih =>
    intro p hp
    obtain ⟨k, v⟩ := q
    simp only [disconnectS] at hp
    by_cases hd : dropHandle v w = []
    · rw [if_pos hd] at hp
      exact ih p hp
    · rw [if_neg hd] at hp
      rcases List.mem_cons.mp hp with hp1 | hp1
      · rw [hp1]; exact hd
      · exact ih p hp1

/- ===================== Claim C9 ===================== -/

/-- Claim C9 (amended): after a terminal event is broadcast for a session, the
session's record is deleted (its lookup yields nothing), but the identifier
does not become unreachable for subscription: a subsequent subscribe lazily
re-creates a fresh record under the same identifier containing exactly the new
handle. -/
theorem terminal_then_resubscribe_fresh (reg : Reg) (sid : Nat) (e : PubEvent)
    (ht : isTerminal e.step = true) :
    lookupS (broadcastStep reg sid e).1 sid = none ∧
    ∀ w, lookupS (subscribeS (broadcastStep reg sid e).1 sid w) sid = some [w] := by
  have hdel : lookupS (broadcastStep reg sid e).1 sid = none := by
    cases hml : lookupS reg sid with
    | none => simp only [broadcastStep, hml]
    | some hs =>
      simp only [broadcastStep, hml]
      rw [if_pos ht]
      exact lookupS_erase reg sid
  refine ⟨hdel, fun w => ?_⟩
  simp only [subscribeS, hdel]
  exact lookupS_setS_self _ _ _

/-- Witness for claim C9's theorem: session 1 with subscriber 7, a terminal
`error` event. -/
theorem terminal_then_resubscribe_fresh_witness :
    (isTerminal (PubEvent.mk Step.error none).step = true) ∧
    (lookupS (broadcastStep [(1, [7])] 1 (PubEvent.mk Step.error none)).1 1 = none ∧
      ∀ w, lookupS (subscribeS (broadcastStep [(1, [7])] 1
        (PubEvent.mk Step.error none)).1 1 w) 1 = some [w]) :=
  ⟨by decide, terminal_then_resubscribe_fresh [(1, [7])] 1 (PubEvent.mk Step.error none) (by decide)⟩

/-- Counterexample to claim C9 as stated: after the session subscribed by
handle 7 receives a terminal `completed` event, a new subscribe registers
handle 9 under the same session identifier, so the identifier is not
unreachable for further subscription. -/
theorem resubscribe_after_terminal_counterexample :
    registeredS (subscribeS (broadcastStep (subscribeS [] 1 7) 1
      (PubEvent.mk Step.completed none)).1 1 9) 1 9 = true := by decide

/- ===================== Claim C10 ===================== -/

/-- Claim C10: publishing an event for a session identifier with no currently
registered subscriber handles is a silent no-op: nothing is delivered, no
session record is created, and the registry is unchanged.  (The invariant
hypothesis — every existing entry has a non-empty handle set — holds in every
reachable registry, as shown by `subscribeS_nonempty`, `broadcastStep_nonempty`
and `disconnectS_nonempty`.) -/
theorem broadcast_no_subscribers_noop (reg : Reg) (sid : Nat) (e : PubEvent)
    (hinv : ∀ p ∈ reg, p.2 ≠ [])
    (hno : ∀ w, registeredS reg sid w = false) :
    broadcastStep reg sid e = (reg, []) := by
  cases hml : lookupS reg sid with
  | none => simp only [broadcastStep, hml]
  | some hs =>
    exfalso
    have hne : hs ≠ [] := hinv (sid, hs) (lookupS_mem hml)
    obtain ⟨w, ws, rfl⟩ := List.exists_cons_of_ne_nil hne
    have hr := hno w
    simp only [registeredS, hml] at hr
    simp at hr

/-- Witness for claim C10's theorem: a registry holding only session 1 with
subscriber 7, and an event published for the absent session 2. -/
theorem broadcast_no_subscribers_noop_witness :
    ((∀ p ∈ ([(1, [7])] : Reg), p.2 ≠ []) ∧
      (∀ w, registeredS [(1, [7])] 2 w = false)) ∧
    broadcastStep [(1, [7])] 2 (PubEvent.mk Step.generatingAudio none) = ([(1, [7])], []) :=
  ⟨⟨by decide, fun _ => rfl⟩,
    broadcast_no_subscribers_noop [(1, [7])] 2 (PubEvent.mk Step.generatingAudio none)
      (by decide) (fun _ => rfl)⟩

/- ===================== Claim C2 ===================== -/

lemma broadcastStep_some {reg : Reg} {sid : Nat} {hs : List Nat} (e : PubEvent)
    (h : lookupS reg sid = some hs) :
    broadcastStep reg sid e =
      ((if isTerminal e.step then eraseS reg sid else reg), [e]) := by
  simp only [broadcastStep, h]

lemma broadcastStep_absent {reg : Reg} {sid : Nat} (e : PubEvent)
    (h : lookupS reg sid = none) :
    broadcastStep reg sid e = (reg, []) := by
  simp only [broadcastStep, h]

lemma processPublishes_absent {reg : Reg} {sid : Nat} (h : lookupS reg sid = none) :
    ∀ evs, processPublishes reg sid evs = (reg, []) := by
  intro evs
  induction evs with
  | nil => rfl
  | cons e rest ih =>
    simp only [processPublishes, broadcastStep_absent e h, ih, List.nil_append]

lemma delivered_eq_takeThrough (evs : List PubEvent) : ∀ (reg : Reg) (sid : Nat)
    (hs : List Nat), lookupS reg sid = some hs →
    (processPublishes reg sid evs).2 = takeThroughTerminal evs := by
  induction evs with
  | nil => intro reg sid hs _; rfl
  | cons e rest ih =>
    intro reg sid hs h
    simp only [processPublishes, broadcastStep_some e h, takeThroughTerminal]
    by_cases ht : isTerminal e.step = true
    · rw [if_pos ht, if_pos ht,
        (processPublishes_absent (lookupS_erase reg sid) rest : _)]
      simp
    · rw [if_neg ht, if_neg ht, ih reg sid hs h]
      simp

lemma afterFirstTerminal_takeThrough (evs : List PubEvent) :
    afterFirstTerminal ((takeThroughTerminal evs).map PubEvent.step) = [] := by
  induction evs with
  | nil => rfl
  | cons e rest ih =>
    simp only [takeThroughTerminal]
    by_cases ht : isTerminal e.step = true
    · rw [if_pos ht]
      simp only [List.map, afterFirstTerminal]
      rw [if_pos ht]
    · rw [if_neg ht]
      simp only [List.map, afterFirstTerminal]
      rw [if_neg ht]
      exact ih

/-- Claim C2 (amended): the coordinator does publish further events (the
`finalizing` event of the cleanup block and a second route-level terminal
event) after the first terminal event of a run; however, the broadcaster
deletes the session record when it delivers a terminal event, so the sequence
of events actually delivered to a session's subscribers is cut at the first
terminal event: it equals the published sequence up to and including that
event, and no event of any step is delivered after it. -/
theorem terminal_event_delivery_cut (reg : Reg) (sid : Nat) (hs : List Nat)
    (evs : List PubEvent) (h : lookupS reg sid = some hs) :
    (processPublishes reg sid evs).2 = takeThroughTerminal evs ∧
    afterFirstTerminal ((processPublishes reg sid evs).2.map PubEvent.step) = [] := by
  have h1 := delivered_eq_takeThrough evs reg sid hs h
  refine ⟨h1, ?_⟩
  rw [h1]
  exact afterFirstTerminal_takeThrough evs

/-- Witness for claim C2's theorem: a registry with session 1 subscribed by
handle 7, processing the full published event sequence of a successful run. -/
theorem terminal_event_delivery_cut_witness :
    (lookupS [(1, [7])] 1 = some [7]) ∧
    ((processPublishes [(1, [7])] 1 (runRoute envOk).events).2 =
        takeThroughTerminal (runRoute envOk).events ∧
      afterFirstTerminal (((processPublishes [(1, [7])] 1
        (runRoute envOk).events).2).map PubEvent.step) = []) :=
  ⟨by decide, terminal_event_delivery_cut [(1, [7])] 1 [7] (runRoute envOk).events (by decide)⟩

/-- Counterexample to claim C2 as stated: in a fully successful run the
published event sequence continues after the first terminal event — the
coordinator's `finally` block publishes a `finalizing` event and the route a
second `completed` event after the `completed` event published inside
`generateVideo`. -/
theorem terminal_event_publish_counterexample :
    afterFirstTerminal ((runRoute envOk).events.map PubEvent.step) =
      [Step.finalizing, Step.completed] ∧
    Step.finalizing ∈ afterFirstTerminal ((runRoute envOk).events.map PubEvent.step) := by
  constructor <;> decide

/- ===================== Claim C3 ===================== -/

/-- Claim C3 evaluated at its failing input: when the encoder exits cleanly
but the post-encode ffprobe of the output fails, the run ends in error with
the temporary audio and image files removed but the temporary video file still
on disk — the cleanup misses the partial video artifact on this path. -/
theorem probe_failure_leaves_video_file :
    (runRoute envProbeFail).fs = [outPathF] ∧
    outPathF ∈ (runRoute envProbeFail).fs ∧
    audioPathF ∉ (runRoute envProbeFail).fs ∧
    imgPathF 0 ∉ (runRoute envProbeFail).fs ∧
    (runRoute envProbeFail).events.getLast? =
      some (PubEvent.mk Step.error (some "INTERNAL_ERROR")) := by
  refine ⟨by decide, by decide, by decide, by decide, by decide⟩

/- ===================== Claim C4 ===================== -/

/-- Claim C4 evaluated at its failing input: on the 120-second encoder timeout
the process is killed and the partial output is deleted, but the thrown
message `FFmpeg timeout after 120 seconds. ...` does not match the route's
`FFmpeg failed` pattern, so the failure is categorized as the generic
`INTERNAL_ERROR`, not as `VIDEO_PROCESSING_ERROR`. -/
theorem timeout_categorized_internal_error :
    (runRoute envTimeout).killed = true ∧
    outPathF ∉ (runRoute envTimeout).fs ∧
    (runRoute envTimeout).events.getLast? =
      some (PubEvent.mk Step.error (some "INTERNAL_ERROR")) ∧
    categorizeError ("FFmpeg timeout after 120 seconds. Stderr: ".toList) = "INTERNAL_ERROR" ∧
    "INTERNAL_ERROR" ≠ "VIDEO_PROCESSING_ERROR" := by
  refine ⟨by decide, by decide, by decide, by decide, by decide⟩
